import Mathlib

/-!
Shallow embedding of the dyntastic library (attr.py, batch.py, transact.py,
main.py): value serialization, update-expression compilation, and the
batch/transaction write coordinators, together with theorems checking the
natural-language specification against this embedding.
-/

namespace Dyntastic

/-! ## Values

`Value` models the Python data shapes handled by `serialize` in attr.py:
pydantic model instances, dicts, lists/tuples, sets, and the scalar literals
`Decimal, str, int, bytes, bool, float, NoneType`.  The json fallback branch
(`json.loads(json.dumps(data, default=pydantic_encoder))`) is modelled for its
canonical case, a datetime encoding to its ISO string; `bytes` and `float`
payloads are kept as abstract tokens since no claim computes with them. -/

inductive Value where
  | str (s : String)
  | int (n : Int)
  | bool (b : Bool)
  | none
  | bytes (tok : Nat)
  | decimal (tok : Nat)
  | float (tok : Nat)
  | datetime (iso : String)
  | list (xs : List Value)
  | set (xs : List Value)
  | dict (kvs : List (String × Value))
  | model (fields : List (String × Value))
deriving Repr

/-- Models the Python check `value is not None`. -/
def isNone : Value → Bool
  | .none => true
  | _ => false

mutual

/-- attr.py `serialize`: walk the data; a pydantic model is dumped to a dict
of its fields; dict entries whose value is `None` are dropped; lists, tuples
and sets are mapped elementwise; scalars are returned unchanged; a datetime
falls to the json round-trip and becomes its string form. -/
def serialize : Value → Value
  | .model fields => Value.dict (serializePairs fields)
  | .dict kvs => Value.dict (serializePairs kvs)
  | .list xs => Value.list (serializeList xs)
  | .set xs => Value.set (serializeList xs)
  | .datetime iso => Value.str iso
  | v => v

/-- Elementwise `serialize` over a list (the `map(serialize, data)` calls). -/
def serializeList : List Value → List Value
  | [] => []
  | x :: xs => serialize x :: serializeList xs

/-- The dict comprehension in `serialize`:
`{key: serialize(value) for key, value in data.items() if value is not None}`. -/
def serializePairs : List (String × Value) → List (String × Value)
  | [] => []
  | (k, v) :: rest =>
    if isNone v then serializePairs rest
    else (k, serialize v) :: serializePairs rest

end

/-- Serializing never produces a bare `None` from a non-`None` input. -/
theorem isNone_serialize (v : Value) : isNone (serialize v) = isNone v := by
  cases v <;> rfl

mutual

theorem serialize_serialize : ∀ v : Value, serialize (serialize v) = serialize v
  | .model fields => by
    simp only [serialize, serializePairs_serializePairs fields]
  | .dict kvs => by
    simp only [serialize, serializePairs_serializePairs kvs]
  | .list xs => by
    simp only [serialize, serializeList_serializeList xs]
  | .set xs => by
    simp only [serialize, serializeList_serializeList xs]
  | .datetime iso => rfl
  | .str _ => rfl
  | .int _ => rfl
  | .bool _ => rfl
  | .none => rfl
  | .bytes _ => rfl
  | .decimal _ => rfl
  | .float _ => rfl

theorem serializeList_serializeList :
    ∀ xs : List Value, serializeList (serializeList xs) = serializeList xs
  | [] => rfl
  | x :: xs => by
    simp only [serializeList, serialize_serialize x, serializeList_serializeList xs]

theorem serializePairs_serializePairs :
    ∀ kvs : List (String × Value), serializePairs (serializePairs kvs) = serializePairs kvs
  | [] => rfl
  | (k, v) :: rest => by
    rcases hv : isNone v with _ | _
    · simp [serializePairs, hv, isNone_serialize v, serialize_serialize v,
        serializePairs_serializePairs rest]
    · simp [serializePairs, hv, serializePairs_serializePairs rest]

end

/-- At one dict node, serialization keeps exactly the keys whose value is not
`None`, serializing each kept value. -/
theorem serializePairs_eq_filter (kvs : List (String × Value)) :
    serializePairs kvs
      = (kvs.filter (fun kv => !isNone kv.2)).map (fun kv => (kv.1, serialize kv.2)) := by
  induction kvs with
  | nil => rfl
  | cons kv rest ih =>
    by_cases h : isNone kv.2 = true
    · simp [serializePairs, h, List.filter, ih]
    · simp [serializePairs, h, List.filter, ih]

mutual

/-- Holds when no dict (or model) node anywhere in the value maps a key to
`None`. -/
def noNoneDictValues : Value → Bool
  | .model fields => noNoneDictValuesPairs fields
  | .dict kvs => noNoneDictValuesPairs kvs
  | .list xs => noNoneDictValuesList xs
  | .set xs => noNoneDictValuesList xs
  | _ => true

def noNoneDictValuesList : List Value → Bool
  | [] => true
  | x :: xs => noNoneDictValues x && noNoneDictValuesList xs

def noNoneDictValuesPairs : List (String × Value) → Bool
  | [] => true
  | (_, v) :: rest => !isNone v && noNoneDictValues v && noNoneDictValuesPairs rest

end

mutual

theorem noNoneDictValues_serialize : ∀ v : Value, noNoneDictValues (serialize v) = true
  | .model fields => noNoneDictValuesPairs_serializePairs fields
  | .dict kvs => noNoneDictValuesPairs_serializePairs kvs
  | .list xs => noNoneDictValuesList_serializeList xs
  | .set xs => noNoneDictValuesList_serializeList xs
  | .datetime _ => rfl
  | .str _ => rfl
  | .int _ => rfl
  | .bool _ => rfl
  | .none => rfl
  | .bytes _ => rfl
  | .decimal _ => rfl
  | .float _ => rfl

theorem noNoneDictValuesList_serializeList :
    ∀ xs : List Value, noNoneDictValuesList (serializeList xs) = true
  | [] => rfl
  | x :: xs => by
    simp only [serializeList, noNoneDictValuesList, noNoneDictValues_serialize x,
      noNoneDictValuesList_serializeList xs, Bool.and_self]

theorem noNoneDictValuesPairs_serializePairs :
    ∀ kvs : List (String × Value), noNoneDictValuesPairs (serializePairs kvs) = true
  | [] => rfl
  | (k, v) :: rest => by
    rcases hv : isNone v with _ | _
    · simp [serializePairs, hv, noNoneDictValuesPairs, isNone_serialize v,
        noNoneDictValues_serialize v, noNoneDictValuesPairs_serializePairs rest]
    · simp [serializePairs, hv, noNoneDictValuesPairs_serializePairs rest]

end

/-! ## Update-expression compilation (attr.py)

`Variables` models the `_Variables` allocator: two insertion-ordered maps,
`attributes` (`#0, #1, ...` to attribute-name segments) and `values`
(`:0, :1, ...` to literal values). -/

structure Variables where
  attributes : List (String × String)
  values : List (String × Value)
deriving Repr

/-- One segment insertion in `_Variables.add_variable` for an `Attr`:
`key = f"#{len(data)}"; data[key] = var`. -/
def addAttrSegments : List String → Variables → List String × Variables
  | [], vars => ([], vars)
  | seg :: rest, vars =>
    let key := "#" ++ toString vars.attributes.length
    let vars1 : Variables := { vars with attributes := vars.attributes ++ [(key, seg)] }
    let (keys, vars2) := addAttrSegments rest vars1
    (key :: keys, vars2)

/-- Python `str.split(".")` over the character list (an executable
re-implementation of `String.splitOn "."`, which the kernel cannot evaluate). -/
def splitOnDotAux : List Char → List Char → List String
  | [], acc => [String.mk acc.reverse]
  | c :: rest, acc =>
    if c = '.' then String.mk acc.reverse :: splitOnDotAux rest []
    else splitOnDotAux rest (c :: acc)

/-- Python `name.split(".")`. -/
def splitOnDot (name : String) : List String :=
  splitOnDotAux name.data []

/-- Models `_Variables.add_variable` on an `Attr`: the dotted name is split on `"."`,
each segment gets its own placeholder, and the placeholders are re-joined with
`"."`. -/
def addAttrVariable (name : String) (vars : Variables) : String × Variables :=
  let (keys, vars1) := addAttrSegments (splitOnDot name) vars
  (String.intercalate "." keys, vars1)

/-- Models `_Variables.add_variable` on a plain literal:
`key = f":{len(values)}"; values[key] = var`. -/
def addValueVariable (v : Value) (vars : Variables) : String × Variables :=
  let key := ":" ++ toString vars.values.length
  (key, { vars with values := vars.values ++ [(key, v)] })

/-- Operand tree fed to `add_variable`: an `Attr` path, a plain literal, a
`_UpdateFn` (`if_not_exists`, `list_append`) or a `_Operator` (`+`, `-`). -/
inductive Operand where
  | attr (name : String)
  | lit (v : Value)
  | fn (fnName : String) (args : List Operand)
  | op (operator : String) (arg1 arg2 : Operand)
deriving Repr

mutual

/-- Models the `_Variables.add_variable` dispatch plus the `build` methods of
`_UpdateFn` and `_Operator`. -/
def buildOperand : Operand → Variables → String × Variables
  | .attr name, vars => addAttrVariable name vars
  | .lit v, vars => addValueVariable v vars
  | .fn fnName args, vars =>
    let (argVars, vars1) := buildOperandList args vars
    (fnName ++ "(" ++ String.intercalate ", " argVars ++ ")", vars1)
  | .op operator a b, vars =>
    let (arg1Var, vars1) := buildOperand a vars
    let (arg2Var, vars2) := buildOperand b vars1
    (arg1Var ++ " " ++ operator ++ " " ++ arg2Var, vars2)

/-- Models `map(variables.add_variable, self.args)` in `_UpdateFn.build`. -/
def buildOperandList : List Operand → Variables → List String × Variables
  | [], vars => ([], vars)
  | a :: rest, vars =>
    let (v, vars1) := buildOperand a vars
    let (vs, vars2) := buildOperandList rest vars1
    (v :: vs, vars2)

end

/-- The `_UpdateAction` subclasses `_ActionSet`, `_ActionRemove`, `_ActionAdd`
and `_ActionDelete`; `path` is the `Attr` name, already validated where the
Python constructor validates. -/
inductive UpdateAction where
  | set (path : String) (value : Operand)
  | remove (path : String) (index : Option Int)
  | add (path : String) (value : Operand)
  | delete (path : String) (value : Operand)
deriving Repr

/-- The `update_action` class attribute of each action. -/
def UpdateAction.updateVerb : UpdateAction → String
  | .set _ _ => "SET"
  | .remove _ _ => "REMOVE"
  | .add _ _ => "ADD"
  | .delete _ _ => "DELETE"

/-- The `build` method of each action: `_ActionSet` formats
`f"{path_var} = {value_var}"`, `_ActionRemove` inlines an integer index as
`f"{path_var}[{self.index}]"`, `_ActionAdd` and `_ActionDelete` format
`f"{path_var} {value_var}"`. -/
def buildAction : UpdateAction → Variables → String × Variables
  | .set path value, vars =>
    let (pathVar, vars1) := addAttrVariable path vars
    let (valueVar, vars2) := buildOperand value vars1
    (pathVar ++ " = " ++ valueVar, vars2)
  | .remove path index, vars =>
    let (pathVar, vars1) := addAttrVariable path vars
    match index with
    | Option.none => (pathVar, vars1)
    | Option.some n => (pathVar ++ "[" ++ toString n ++ "]", vars1)
  | .add path value, vars =>
    let (pathVar, vars1) := addAttrVariable path vars
    let (valueVar, vars2) := buildOperand value vars1
    (pathVar ++ " " ++ valueVar, vars2)
  | .delete path value, vars =>
    let (pathVar, vars1) := addAttrVariable path vars
    let (valueVar, vars2) := buildOperand value vars1
    (pathVar ++ " " ++ valueVar, vars2)

/-- The `for action in actions` loop of `translate_updates`: builds each
action in order against the shared allocator, pairing each fragment with its
verb. -/
def buildActions : List UpdateAction → Variables → List (String × String) × Variables
  | [], vars => ([], vars)
  | a :: rest, vars =>
    let (frag, vars1) := buildAction a vars
    let (frags, vars2) := buildActions rest vars1
    ((a.updateVerb, frag) :: frags, vars2)

/-- Models `serialized_actions[action.update_action].append(...)` on a
`defaultdict(list)`: the fragment joins the existing group for its verb, or a
new group is appended at the end (Python dicts iterate in insertion order). -/
def groupAppend (groups : List (String × List String)) (verb frag : String) :
    List (String × List String) :=
  match groups with
  | [] => [(verb, [frag])]
  | (v, frags) :: rest =>
    if v = verb then (v, frags ++ [frag]) :: rest
    else (v, frags) :: groupAppend rest verb frag

/-- The grouping pass of `translate_updates` over the (verb, fragment) pairs. -/
def groupFragments (pairs : List (String × String)) : List (String × List String) :=
  pairs.foldl (fun gs p => groupAppend gs p.1 p.2) []

/-- The dict returned by `translate_updates`; `ExpressionAttributeValues` is
`Option.none` exactly when the key is absent from the Python dict. -/
structure UpdateData where
  UpdateExpression : String
  ExpressionAttributeNames : List (String × String)
  ExpressionAttributeValues : Option (List (String × Value))
deriving Repr

/-- attr.py `translate_updates`: compile every action against one fresh
allocator, group fragments by verb, join same-verb fragments with `", "`,
join the verb groups with `" "`, and include `ExpressionAttributeValues`
only when at least one value placeholder was allocated. -/
def translate_updates (actions : List UpdateAction) : UpdateData :=
  let (pairs, vars) := buildActions actions ⟨[], []⟩
  let groups := groupFragments pairs
  let actionExpressions := groups.map (fun g => g.1 ++ " " ++ String.intercalate ", " g.2)
  { UpdateExpression := String.intercalate " " actionExpressions
    ExpressionAttributeNames := vars.attributes
    ExpressionAttributeValues := if vars.values.isEmpty then Option.none else Option.some vars.values }

/-- The fixed verb order `SET, REMOVE, ADD, DELETE` named by the spec. -/
def fixedVerbOrder : List String := ["SET", "REMOVE", "ADD", "DELETE"]

/-- Written from the spec words (for comparison with `translate_updates`, not
from the source): the update expression as the space-joined concatenation of
verb groups in the fixed order `SET, REMOVE, ADD, DELETE`, only verbs with at
least one action present, same-verb fragments joined with `", "`.  Fragments
are the ones the code computes. -/
def specFixedOrderExpression (actions : List UpdateAction) : String :=
  let pairs := (buildActions actions ⟨[], []⟩).1
  String.intercalate " "
    ((fixedVerbOrder.filter (fun v => pairs.any (fun p => p.1 = v))).map
      (fun v => v ++ " " ++ String.intercalate ", " ((pairs.filter (fun p => p.1 = v)).map Prod.snd)))

/-- Independent specification of verb grouping in first-encounter order: the
first verb's group collects all of its fragments in order, then the remaining
pairs (other verbs) are grouped recursively. -/
def encounterGroups : List (String × String) → List (String × List String)
  | [] => []
  | (v, f) :: rest =>
    (v, f :: (rest.filter (fun p => p.1 = v)).map Prod.snd)
      :: encounterGroups (rest.filter (fun p => p.1 ≠ v))
termination_by l => l.length
decreasing_by
  simp only [List.length_cons]
  exact Nat.lt_succ_of_le (List.length_filter_le _ _)

/-! ## `_ActionRemove` construction (C8)

The Python constructor receives an arbitrary object as `index` and checks
`type(index) is not int`, so an `int` subclass (which may override `__str__`)
is rejected exactly like a non-integer.  `PyIndex` models the possible
arguments. -/

inductive PyIndex where
  | absent
  | exactInt (n : Int)
  | intSubclass (n : Int) (className : String)
  | nonInt (className : String)
deriving Repr

/-- Errors raised by the embedded code. -/
inductive DynError where
  | invalidRemoveIndex (className : String)
  | cannotProvideExtraArguments (method : String)
  | unsupportedBatchOperation (operation : String)
  | unsupportedTransactOperation (operation : String)
  | batchAndTransaction
  | exceededMaxItems (maxItems : Nat)
  | regionMismatch (first second : Option String)
  | commitEveryTooLarge
  | attributeError (typeName attrName : String)
deriving Repr, DecidableEq

/-- Models `_ActionRemove.__init__`: raises `ValueError` unless `index` is absent or
exactly of built-in `int` type; on success stores the path and index.  The
check runs in the constructor, before any `_Variables` allocator exists, so no
allocator is ever touched on the failing path. -/
def mkActionRemove (path : String) (index : PyIndex) : Except DynError UpdateAction :=
  match index with
  | .absent => Except.ok (UpdateAction.remove path Option.none)
  | .exactInt n => Except.ok (UpdateAction.remove path (Option.some n))
  | .intSubclass _ className => Except.error (DynError.invalidRemoveIndex className)
  | .nonInt className => Except.error (DynError.invalidRemoveIndex className)

/-! ## Condition serialization on the transaction path (transact.py) -/

/-- The object returned by boto3's `ConditionExpressionBuilder.build_expression`
(external to this repository): an expression string and the two placeholder
maps.  `serialize_condition` consumes it as a black box. -/
structure BuiltConditionExpression where
  condition_expression : String
  attribute_name_placeholders : List (String × String)
  attribute_value_placeholders : List (String × Value)
deriving Repr

/-- The dict returned by `serialize_condition`; `ExpressionAttributeValues` is
`Option.none` exactly when the key is absent. -/
structure SerializedCondition where
  ConditionExpression : String
  ExpressionAttributeNames : List (String × String)
  ExpressionAttributeValues : Option (List (String × Value))
deriving Repr

/-- transact.py `serialize_condition`: always emits the expression and the
name placeholders, and includes `ExpressionAttributeValues` only when the
value placeholder map is non-empty (DynamoDB errors on a present-but-empty
value map). -/
def serialize_condition (e : BuiltConditionExpression) : SerializedCondition :=
  { ConditionExpression := e.condition_expression
    ExpressionAttributeNames := e.attribute_name_placeholders
    ExpressionAttributeValues :=
      if e.attribute_value_placeholders.isEmpty then Option.none
      else Option.some e.attribute_value_placeholders }

/-! ## Write coordinators (batch.py, transact.py, main.py)

Store interactions are recorded as a trace of `StoreCall`s.  A
`invoke_with_backoff` round (which loops only on the store's
unprocessed-items signal) is recorded as one physical submission. -/

/-- A keyword-argument value handed to `_dyntastic_call`: an item/key payload
or a condition object (represented by its compiled content). -/
inductive KwargValue where
  | val (v : Value)
  | cond (c : BuiltConditionExpression)
deriving Repr

/-- A batch request record: `{"PutRequest": {...}}` or `{"DeleteRequest": {...}}`. -/
structure BatchItem where
  requestKey : String
  body : List (String × KwargValue)
deriving Repr

/-- A transact request record: `{"Put"|"Delete"|"Update"|"ConditionCheck": {...}}`. -/
structure TransactItem where
  opKey : String
  body : List (String × KwargValue)
deriving Repr

/-- One call against the external store. -/
inductive StoreCall where
  | tableMethod (operation : String) (kwargs : List (String × KwargValue))
  | batchWriteItem (batch : List BatchItem)
  | transactWriteItems (items : List TransactItem)
deriving Repr

/-- Holds for a direct single-item table method call (`put_item`,
`delete_item`, `update_item`, `query`, ...). -/
def StoreCall.isTableMethod : StoreCall → Bool
  | .tableMethod _ _ => true
  | _ => false

/-- batch.py `BatchWriter` state. -/
structure BatchWriter where
  batch_size : Nat
  batch : List BatchItem
  batches_submitted : Nat
deriving Repr

/-- Models `BatchWriter._commit`: submit and clear the buffer when non-empty,
otherwise do nothing. -/
def BatchWriter.commit (w : BatchWriter) : BatchWriter × List StoreCall :=
  if w.batch.isEmpty then (w, [])
  else ({ w with batch := [], batches_submitted := w.batches_submitted + 1 },
        [StoreCall.batchWriteItem w.batch])

/-- Models `BatchWriter.add`: append, then flush if the buffer reached
`batch_size`. -/
def BatchWriter.add (w : BatchWriter) (item : BatchItem) : BatchWriter × List StoreCall :=
  let w1 : BatchWriter := { w with batch := w.batch ++ [item] }
  if w.batch_size ≤ w1.batch.length then w1.commit else (w1, [])

/-- Runs `BatchWriter.add` folded over a list of items, concatenating the emitted
store calls. -/
def BatchWriter.addAll : BatchWriter → List BatchItem → BatchWriter × List StoreCall
  | w, [] => (w, [])
  | w, item :: rest =>
    let (w1, c1) := w.add item
    let (w2, c2) := w1.addAll rest
    (w2, c1 ++ c2)

/-- transact.py `TRANSACTION_MAX_ITEMS`. -/
def TRANSACTION_MAX_ITEMS : Nat := 100

/-- transact.py `TransactionWriter` state.  `first_table_region` models
`_first_table`: `Option.none` until a table registers, then
`Option.some region` where `region` is that table's `__table_region__`
(itself optional). -/
structure TransactionWriter where
  items : List TransactItem
  auto_commit : Bool
  commit_max : Nat
  batches_submitted : Nat
  first_table_region : Option (Option String)
deriving Repr

/-- Models `TransactionWriter.__init__`: asserts `commit_every <= 100` and starts
with an empty buffer. -/
def mkTransactionWriter (auto_commit : Bool) (commit_every : Nat) :
    Except DynError TransactionWriter :=
  if commit_every ≤ TRANSACTION_MAX_ITEMS then
    Except.ok ⟨[], auto_commit, commit_every, 0, Option.none⟩
  else Except.error DynError.commitEveryTooLarge

/-- Models `TransactionWriter.commit`: one `transact_write_items` call carrying the
whole buffer when it is non-empty, otherwise nothing. -/
def TransactionWriter.commit (t : TransactionWriter) : TransactionWriter × List StoreCall :=
  if t.items.isEmpty then (t, [])
  else ({ t with items := [], batches_submitted := t.batches_submitted + 1 },
        [StoreCall.transactWriteItems t.items])

/-- Models `TransactionWriter._register_table`: pin the first table's region, assert
all later tables match it. -/
def TransactionWriter.register (t : TransactionWriter) (region : Option String) :
    Except DynError TransactionWriter :=
  match t.first_table_region with
  | Option.none => Except.ok { t with first_table_region := Option.some region }
  | Option.some r =>
    if r = region then Except.ok t
    else Except.error (DynError.regionMismatch r region)

/-- Models `TransactionWriter.add`: without auto-commit, reject when the buffer
already holds `TRANSACTION_MAX_ITEMS`; otherwise register the table, append
the item, and with auto-commit flush upon reaching `commit_max`. -/
def TransactionWriter.addItem (t : TransactionWriter) (region : Option String)
    (item : TransactItem) : Except DynError (TransactionWriter × List StoreCall) :=
  if t.auto_commit = false ∧ t.items.length = TRANSACTION_MAX_ITEMS then
    Except.error (DynError.exceededMaxItems TRANSACTION_MAX_ITEMS)
  else
    match t.register region with
    | Except.error e => Except.error e
    | Except.ok t1 =>
      let t2 : TransactionWriter := { t1 with items := t1.items ++ [item] }
      if t2.auto_commit = true ∧ t2.items.length = t2.commit_max then Except.ok t2.commit
      else Except.ok (t2, [])

/-- Runs `TransactionWriter.add` folded over a list of items added through the same
table, concatenating emitted store calls. -/
def TransactionWriter.addAllItems : TransactionWriter → Option String → List TransactItem →
    Except DynError (TransactionWriter × List StoreCall)
  | t, _, [] => Except.ok (t, [])
  | t, region, item :: rest =>
    match t.addItem region item with
    | Except.error e => Except.error e
    | Except.ok (t1, c1) =>
      match t1.addAllItems region rest with
      | Except.error e => Except.error e
      | Except.ok (t2, c2) => Except.ok (t2, c1 ++ c2)

/-! ## Active-coordinator state and `_dyntastic_call`

main.py stores the active batch writer in the class attribute
`_dyntastic_batch_writer`, initialized to a `ContextVar` and read with
`.get()` in `_dyntastic_call`.  batch.py's `__enter__`/`__exit__` however
*assign* that attribute (`self.table._dyntastic_batch_writer = self` /
`= None`), replacing the `ContextVar` object itself, so the slot can hold a
`ContextVar`, a `BatchWriter`, or `None`; `.get()` on the latter two raises
`AttributeError`. -/

inductive BatchWriterSlot where
  | contextVar (current : Option BatchWriter)
  | writerObject (w : BatchWriter)
  | noneObject
deriving Repr

/-- Models `cls._dyntastic_batch_writer.get()`: succeeds only while the slot still
holds the `ContextVar`. -/
def slotGet : BatchWriterSlot → Except DynError (Option BatchWriter)
  | .contextVar current => Except.ok current
  | .writerObject _ => Except.error (DynError.attributeError "BatchWriter" "get")
  | .noneObject => Except.error (DynError.attributeError "NoneType" "get")

/-- The coordinator state visible to one model type in one logical flow: the
`_dyntastic_batch_writer` slot and the transaction context variable. -/
structure CallContext where
  batch_slot : BatchWriterSlot
  transaction_writer : Option TransactionWriter
deriving Repr

/-- A fresh context: the batch slot holds its `ContextVar` (default `None`),
no transaction is active. -/
def initContext : CallContext := ⟨BatchWriterSlot.contextVar Option.none, Option.none⟩

/-- Models `BatchWriter.__enter__`: `self.table._dyntastic_batch_writer = self`.
No check is performed, so entry never raises. -/
def batchWriterEnter (ctx : CallContext) (w : BatchWriter) : Except DynError CallContext :=
  Except.ok { ctx with batch_slot := BatchWriterSlot.writerObject w }

/-- Models `BatchWriter.__exit__`: `self.table._dyntastic_batch_writer = None`, then
`_commit()` — the final flush runs regardless of how the scope exits. -/
def batchWriterExit (ctx : CallContext) (w : BatchWriter) (_excOccurred : Bool) :
    CallContext × BatchWriter × List StoreCall :=
  let (w1, calls) := w.commit
  ({ ctx with batch_slot := BatchWriterSlot.noneObject }, w1, calls)

/-- Models `TransactionWriter.__enter__`: `_transaction_writer_var.set(self)`.
No check is performed, so entry never raises. -/
def transactionWriterEnter (ctx : CallContext) (t : TransactionWriter) :
    Except DynError CallContext :=
  Except.ok { ctx with transaction_writer := Option.some t }

/-- Models `TransactionWriter.__exit__`: reset the context variable, then commit the
remaining buffer only when no exception is propagating. -/
def transactionWriterExit (ctx : CallContext) (t : TransactionWriter) (excOccurred : Bool) :
    CallContext × TransactionWriter × List StoreCall :=
  let ctx1 : CallContext := { ctx with transaction_writer := Option.none }
  if excOccurred then (ctx1, t, [])
  else
    let (t1, calls) := t.commit
    (ctx1, t1, calls)

/-- Python set-equality on dict key views. -/
def keysMatch (ks required : List String) : Bool :=
  ks.all (fun k => required.contains k) && required.all (fun k => ks.contains k)

/-- main.py `_construct_batch_item`: only `delete_item` (requiring exactly
`Key`) and `put_item` (requiring exactly `Item`) are supported; any other key
set means extra arguments were passed to `save()`/`delete()` and is rejected.
The record wraps the kwargs under `DeleteRequest`/`PutRequest`. -/
def construct_batch_item (operation : String) (filtered : List (String × KwargValue)) :
    Except DynError BatchItem :=
  if operation = "delete_item" then
    if keysMatch (filtered.map Prod.fst) ["Key"] then Except.ok ⟨"DeleteRequest", filtered⟩
    else Except.error (DynError.cannotProvideExtraArguments "delete")
  else if operation = "put_item" then
    if keysMatch (filtered.map Prod.fst) ["Item"] then Except.ok ⟨"PutRequest", filtered⟩
    else Except.error (DynError.cannotProvideExtraArguments "save")
  else Except.error (DynError.unsupportedBatchOperation operation)

/-- main.py `_construct_transact_item`, at the level the claims observe: the
operation is mapped to its transact key and the kwargs (plus `TableName`) form
the record body.  The boto3-level payload serialization and the merge of
`serialize_condition` output into the kwargs (treated separately in the
`serialize_condition` theorems) are not re-modelled here: no claim inspects a
transact record's payload. -/
def construct_transact_item (tableName : String) (filtered : List (String × KwargValue))
    (operation : String) : Except DynError TransactItem :=
  let body := ("TableName", KwargValue.val (Value.str tableName)) :: filtered
  if operation = "delete_item" then Except.ok ⟨"Delete", body⟩
  else if operation = "put_item" then Except.ok ⟨"Put", body⟩
  else if operation = "update_item" then Except.ok ⟨"Update", body⟩
  else if operation = "transaction_condition" then Except.ok ⟨"ConditionCheck", body⟩
  else Except.error (DynError.unsupportedTransactOperation operation)

/-- main.py `_dyntastic_call`: drop `None` kwargs, read the active batch
writer (`.get()` may raise, see `slotGet`) and transaction writer; with both
active raise immediately; with neither active, or for `query`/`scan`, call
the table method directly; otherwise route the operation to the one active
coordinator. -/
def dyntastic_call (ctx : CallContext) (tableName : String) (region : Option String)
    (operation : String) (kwargs : List (String × Option KwargValue)) :
    Except DynError (CallContext × List StoreCall) :=
  let filtered := kwargs.filterMap (fun p => p.2.map (fun v => (p.1, v)))
  match slotGet ctx.batch_slot with
  | Except.error e => Except.error e
  | Except.ok batch_writer =>
    match batch_writer, ctx.transaction_writer with
    | Option.some _, Option.some _ => Except.error DynError.batchAndTransaction
    | Option.none, Option.none => Except.ok (ctx, [StoreCall.tableMethod operation filtered])
    | Option.some w, Option.none =>
      if operation = "query" ∨ operation = "scan" then
        Except.ok (ctx, [StoreCall.tableMethod operation filtered])
      else
        match construct_batch_item operation filtered with
        | Except.error e => Except.error e
        | Except.ok batchItem =>
          let (w1, calls) := w.add batchItem
          Except.ok ({ ctx with batch_slot := BatchWriterSlot.contextVar (Option.some w1) }, calls)
    | Option.none, Option.some t =>
      if operation = "query" ∨ operation = "scan" then
        Except.ok (ctx, [StoreCall.tableMethod operation filtered])
      else
        match construct_transact_item tableName filtered operation with
        | Except.error e => Except.error e
        | Except.ok item =>
          match t.addItem region item with
          | Except.error e => Except.error e
          | Except.ok (t1, calls) =>
            Except.ok ({ ctx with transaction_writer := Option.some t1 }, calls)

/-- Models `Dyntastic.save`: `put_item` with the serialized item and the optional
condition (dropped from the kwargs when absent). -/
def save (ctx : CallContext) (tableName : String) (region : Option String) (item : Value)
    (condition : Option BuiltConditionExpression) :
    Except DynError (CallContext × List StoreCall) :=
  dyntastic_call ctx tableName region "put_item"
    [("Item", Option.some (KwargValue.val (serialize item))),
     ("ConditionExpression", condition.map KwargValue.cond)]

/-- Models `Dyntastic.delete`: `delete_item` with the serialized key dict and the
optional condition. -/
def deleteItem (ctx : CallContext) (tableName : String) (region : Option String)
    (keyDict : Value) (condition : Option BuiltConditionExpression) :
    Except DynError (CallContext × List StoreCall) :=
  dyntastic_call ctx tableName region "delete_item"
    [("Key", Option.some (KwargValue.val (serialize keyDict))),
     ("ConditionExpression", condition.map KwargValue.cond)]

/-! ## Stale-instance gating (main.py `update` / `__getattribute__`, C10) -/

/-- The private flags of a `Dyntastic` instance that drive attribute gating. -/
structure InstanceState where
  dyntastic_unrefreshed : Bool
  dyntastic_missing_attributes_from_index : Bool
deriving Repr

/-- Models `Dyntastic.refresh`: clears both flags (then re-reads the item from the
store and merges it into `__dict__`; the store read does not affect the
flags). -/
def refreshMethod (_st : InstanceState) : InstanceState :=
  { dyntastic_unrefreshed := false, dyntastic_missing_attributes_from_index := false }

/-- Models `Dyntastic.ignore_unrefreshed`: clears only the unrefreshed flag. -/
def ignore_unrefreshed (st : InstanceState) : InstanceState :=
  { st with dyntastic_unrefreshed := false }

/-- The flag behaviour of `Dyntastic.update` once `_dyntastic_call` has
returned without a conditional-check failure: the instance is marked
unrefreshed, then refreshed only when `refresh=True` and no transaction is
active (inside a transaction the refresh is skipped with a warning). -/
def updateMethodFlags (st : InstanceState) (refresh transactionActive : Bool) : InstanceState :=
  let st1 : InstanceState := { st with dyntastic_unrefreshed := true }
  if refresh then
    if transactionActive then st1
    else refreshMethod st1
  else st1

/-- The attribute names `__getattribute__` always passes through to the
default lookup. -/
def getattributeAllowList : List String :=
  ["refresh", "ignore_unrefreshed", "ConditionException", "model_post_init"]

/-- Outcome of one attribute access. -/
inductive AttrAccess where
  | passthrough
  | unrefreshedError
  | missingFromIndexError
  | attributeError
deriving Repr, DecidableEq

/-- Python `attr.startswith("_")` (an executable re-implementation of
`String.startsWith "_"`, which the kernel cannot evaluate). -/
def startsWithUnderscore (s : String) : Bool :=
  match s.data with
  | [] => false
  | c :: _ => c = '_'

/-- Models `Dyntastic.__getattribute__`: names starting with `_` and allow-listed
names go straight to the default lookup; otherwise an unrefreshed instance
raises; otherwise the default lookup runs, with a missing attribute remapped
to the index error when the instance was loaded from a KEYS_ONLY or INCLUDE index.
`hasAttr` abstracts whether the default lookup finds the attribute. -/
def getattribute (st : InstanceState) (attrName : String) (hasAttr : Bool) : AttrAccess :=
  if startsWithUnderscore attrName = true ∨ attrName ∈ getattributeAllowList then
    if hasAttr then AttrAccess.passthrough else AttrAccess.attributeError
  else if st.dyntastic_unrefreshed then AttrAccess.unrefreshedError
  else if hasAttr then AttrAccess.passthrough
  else if st.dyntastic_missing_attributes_from_index then AttrAccess.missingFromIndexError
  else AttrAccess.attributeError

/-! ## Helper lemmas -/

/-- Allocating attribute-name segments never touches the value map. -/
theorem addAttrSegments_values (segs : List String) :
    ∀ vars : Variables, ((addAttrSegments segs vars).2).values = vars.values := by
  induction segs with
  | nil => intro vars; rfl
  | cons seg rest ih =>
    intro vars
    simp only [addAttrSegments]
    exact ih _

/-- Allocating an attribute path never touches the value map. -/
theorem addAttrVariable_values (name : String) (vars : Variables) :
    ((addAttrVariable name vars).2).values = vars.values := by
  simp only [addAttrVariable]
  exact addAttrSegments_values _ _

/-! ## Claim theorems -/

/-- C7: `serialize` is idempotent on every supported value shape, and for
mappings it drops exactly the keys whose value is `None`: at each dict node
the surviving keys are precisely those bound to a non-`None` value (each
serialized), and no dict node at any nesting depth of a serialized value
still binds a key to `None`. -/
theorem serialize_idempotent_and_drops_none :
    (∀ v : Value, serialize (serialize v) = serialize v)
    ∧ (∀ kvs : List (String × Value),
        serialize (Value.dict kvs)
          = Value.dict ((kvs.filter (fun kv => !isNone kv.2)).map
              (fun kv => (kv.1, serialize kv.2))))
    ∧ (∀ v : Value, noNoneDictValues (serialize v) = true) :=
  ⟨serialize_serialize,
   fun kvs => by simp only [serialize, serializePairs_eq_filter],
   noNoneDictValues_serialize⟩

/-- C8: constructing a `Remove` whose index is neither absent nor exactly of
built-in `int` type (any `int` subclass included) fails with the validation
error in the constructor itself — before any allocator exists or any
expression text is produced — while a valid integer index is inlined
verbatim into the fragment and allocates no value placeholder. -/
theorem remove_index_validation :
    (∀ (path : String) (n : Int) (className : String),
        mkActionRemove path (PyIndex.intSubclass n className)
          = Except.error (DynError.invalidRemoveIndex className))
    ∧ (∀ (path className : String),
        mkActionRemove path (PyIndex.nonInt className)
          = Except.error (DynError.invalidRemoveIndex className))
    ∧ (∀ (path : String) (n : Int) (vars : Variables),
        buildAction (UpdateAction.remove path (Option.some n)) vars
          = ((addAttrVariable path vars).1 ++ "[" ++ toString n ++ "]",
             (addAttrVariable path vars).2)
        ∧ ((buildAction (UpdateAction.remove path (Option.some n)) vars).2).values
            = vars.values) := by
  refine ⟨fun _ _ _ => rfl, fun _ _ => rfl, fun path n vars => ?_⟩
  have hb : buildAction (UpdateAction.remove path (Option.some n)) vars
      = ((addAttrVariable path vars).1 ++ "[" ++ toString n ++ "]",
         (addAttrVariable path vars).2) := by
    simp only [buildAction]
  exact ⟨hb, by rw [hb]; exact addAttrVariable_values path vars⟩

/-- C9: the compiled output omits `ExpressionAttributeValues` entirely when no
value placeholder was allocated, both in `translate_updates` and in
`serialize_condition` on the transaction path; compiling
`Remove("my_list", 1)` yields `REMOVE #0[1]` with names `{#0: my_list}` and no
value map at all. -/
theorem values_map_omitted_when_empty :
    (∀ actions : List UpdateAction,
        ((buildActions actions ⟨[], []⟩).2).values = [] →
        (translate_updates actions).ExpressionAttributeValues = Option.none)
    ∧ (∀ e : BuiltConditionExpression,
        e.attribute_value_placeholders = [] →
        (serialize_condition e).ExpressionAttributeValues = Option.none)
    ∧ translate_updates [UpdateAction.remove "my_list" (Option.some 1)]
        = { UpdateExpression := "REMOVE #0[1]",
            ExpressionAttributeNames := [("#0", "my_list")],
            ExpressionAttributeValues := Option.none } := by
  refine ⟨fun actions h => ?_, fun e h => ?_, by rfl⟩
  · simp only [translate_updates, h, List.isEmpty_nil, if_true]
  · simp only [serialize_condition, h, List.isEmpty_nil, if_true]

/-- Witness for C9 at concrete inputs. -/
theorem values_map_omitted_when_empty_witness :
    (translate_updates [UpdateAction.remove "my_list" (Option.some 1)]).ExpressionAttributeValues
        = Option.none
    ∧ (serialize_condition ⟨"attribute_exists(#n0)", [("#n0", "id")], []⟩).ExpressionAttributeValues
        = Option.none :=
  ⟨values_map_omitted_when_empty.1 [UpdateAction.remove "my_list" (Option.some 1)] (by rfl),
   values_map_omitted_when_empty.2.1 ⟨"attribute_exists(#n0)", [("#n0", "id")], []⟩ (by rfl)⟩

/-- C5: on transaction scope exit without an exception the whole remaining
buffer goes out in one `transact_write_items` call (none when empty); on
exceptional exit no commit call is made and nothing is counted as submitted;
in both cases the transaction context variable is reset.  (The writer object
itself still holds the uncommitted list on exceptional exit, but it has been
deactivated, so the buffer is abandoned uncommitted.) -/
theorem transaction_exit_commit_semantics :
    ∀ (ctx : CallContext) (t : TransactionWriter),
      (transactionWriterExit ctx t false).2.2
          = (if t.items.isEmpty then [] else [StoreCall.transactWriteItems t.items])
      ∧ ((transactionWriterExit ctx t false).2.1).items = []
      ∧ (transactionWriterExit ctx t true).2.2 = []
      ∧ ((transactionWriterExit ctx t true).2.1).batches_submitted = t.batches_submitted
      ∧ (∀ excOccurred : Bool,
          ((transactionWriterExit ctx t excOccurred).1).transaction_writer = Option.none) := by
  intro ctx t
  refine ⟨?_, ?_, rfl, rfl, ?_⟩
  · by_cases h : t.items.isEmpty <;>
      simp [transactionWriterExit, TransactionWriter.commit, h]
  · by_cases h : t.items.isEmpty
    · simp [transactionWriterExit, TransactionWriter.commit, h, List.isEmpty_iff.mp h]
    · simp [transactionWriterExit, TransactionWriter.commit, h]
  · intro excOccurred
    cases excOccurred
    · by_cases h : t.items.isEmpty <;>
        simp [transactionWriterExit, TransactionWriter.commit, h]
    · simp [transactionWriterExit]

/-- C10: after `update` runs with its refresh step skipped (`refresh=False`,
or a transaction active), every access to a public attribute — name not
starting with `_` and not in the allow list — raises the unrefreshed error,
and both `refresh()` and `ignore_unrefreshed()` clear that state so the same
access no longer raises it. -/
theorem update_without_refresh_gates_access :
    ∀ (st : InstanceState) (refresh transactionActive : Bool) (attrName : String)
      (hasAttr : Bool),
      (refresh = false ∨ transactionActive = true) →
      startsWithUnderscore attrName = false →
      attrName ∉ getattributeAllowList →
      getattribute (updateMethodFlags st refresh transactionActive) attrName hasAttr
          = AttrAccess.unrefreshedError
      ∧ ((updateMethodFlags st refresh transactionActive).dyntastic_unrefreshed = true)
      ∧ getattribute (refreshMethod (updateMethodFlags st refresh transactionActive))
            attrName hasAttr ≠ AttrAccess.unrefreshedError
      ∧ getattribute (ignore_unrefreshed (updateMethodFlags st refresh transactionActive))
            attrName hasAttr ≠ AttrAccess.unrefreshedError := by
  intro st refresh transactionActive attrName hasAttr hskip hus hallow
  have hflag : (updateMethodFlags st refresh transactionActive).dyntastic_unrefreshed = true := by
    rcases hskip with h | h <;> simp [updateMethodFlags, h]
  refine ⟨?_, hflag, ?_, ?_⟩
  · simp [getattribute, hus, hallow, hflag]
  · cases hasAttr <;> simp [getattribute, hus, hallow, refreshMethod]
  · rcases hmiss : (updateMethodFlags st refresh
        transactionActive).dyntastic_missing_attributes_from_index with _ | _ <;>
      cases hasAttr <;>
      simp [getattribute, hus, hallow, ignore_unrefreshed, hmiss]

/-- Witness for C10 at a concrete instance and attribute name. -/
theorem update_without_refresh_gates_access_witness :
    getattribute (updateMethodFlags ⟨false, false⟩ false false) "my_field" true
        = AttrAccess.unrefreshedError
    ∧ ((updateMethodFlags ⟨false, false⟩ false false).dyntastic_unrefreshed = true)
    ∧ getattribute (refreshMethod (updateMethodFlags ⟨false, false⟩ false false))
          "my_field" true ≠ AttrAccess.unrefreshedError
    ∧ getattribute (ignore_unrefreshed (updateMethodFlags ⟨false, false⟩ false false))
          "my_field" true ≠ AttrAccess.unrefreshedError :=
  update_without_refresh_gates_access ⟨false, false⟩ false false "my_field" true
    (Or.inl rfl) (by decide) (by decide)

/-- C1 (failing behaviour): after `batch_writer().__enter__` the class slot
`_dyntastic_batch_writer` holds the writer object instead of its
`ContextVar`, so the `.get()` in `_dyntastic_call` raises `AttributeError`
for every `save()` and `delete()` issued in the scope: nothing is captured
into the writer's buffer and no store call is made, contradicting the
documented (and tested) capture behaviour. -/
theorem batch_scope_save_raises_attribute_error :
    ∀ (ctx ctx1 : CallContext) (w : BatchWriter) (tableName : String)
      (region : Option String) (item keyDict : Value),
      batchWriterEnter ctx w = Except.ok ctx1 →
      save ctx1 tableName region item Option.none
          = Except.error (DynError.attributeError "BatchWriter" "get")
      ∧ deleteItem ctx1 tableName region keyDict Option.none
          = Except.error (DynError.attributeError "BatchWriter" "get") := by
  intro ctx ctx1 w tableName region item keyDict henter
  have hctx : ctx1 = { ctx with batch_slot := BatchWriterSlot.writerObject w } := by
    simpa [batchWriterEnter] using henter.symm
  subst hctx
  exact ⟨rfl, rfl⟩

/-- Witness for C1's failing behaviour at a concrete scope. -/
theorem batch_scope_save_raises_attribute_error_witness :
    save { initContext with batch_slot := BatchWriterSlot.writerObject ⟨25, [], 0⟩ }
        "my_table" Option.none (Value.dict [("id", Value.str "1")]) Option.none
        = Except.error (DynError.attributeError "BatchWriter" "get")
    ∧ deleteItem { initContext with batch_slot := BatchWriterSlot.writerObject ⟨25, [], 0⟩ }
        "my_table" Option.none (Value.dict [("id", Value.str "1")]) Option.none
        = Except.error (DynError.attributeError "BatchWriter" "get") :=
  batch_scope_save_raises_attribute_error initContext
    { initContext with batch_slot := BatchWriterSlot.writerObject ⟨25, [], 0⟩ }
    ⟨25, [], 0⟩ "my_table" Option.none (Value.dict [("id", Value.str "1")])
    (Value.dict [("id", Value.str "1")]) rfl

/-- C6 counterexample: starting the second coordinator while the first is
active raises nothing at scope entry — both `__enter__`s return normally and
afterwards both coordinators are active. -/
theorem coordinator_entry_never_raises_counterexample :
    batchWriterEnter initContext ⟨25, [], 0⟩
        = Except.ok { initContext with batch_slot := BatchWriterSlot.writerObject ⟨25, [], 0⟩ }
    ∧ transactionWriterEnter
          { initContext with batch_slot := BatchWriterSlot.writerObject ⟨25, [], 0⟩ }
          ⟨[], false, 100, 0, Option.none⟩
        = Except.ok { batch_slot := BatchWriterSlot.writerObject ⟨25, [], 0⟩,
                      transaction_writer := Option.some ⟨[], false, 100, 0, Option.none⟩ }
    ∧ (Option.some (⟨[], false, 100, 0, Option.none⟩ : TransactionWriter)) ≠
        (Option.none : Option TransactionWriter) := by
  exact ⟨rfl, rfl, by simp⟩

/-- C6 as amended: no check runs at scope entry; instead the first operation
issued while both coordinators are active fails before any store call.  With
the batch slot holding the writer object (the state `__enter__` actually
produces) the `.get()` raises `AttributeError`; with a batch writer held in
the context variable (the intended active state) the explicit cannot-use-both
guard fires. -/
theorem both_coordinators_error_on_first_operation :
    ∀ (ctx : CallContext) (tableName : String) (region : Option String)
      (operation : String) (kwargs : List (String × Option KwargValue))
      (w : BatchWriter) (t : TransactionWriter),
      ctx.transaction_writer = Option.some t →
      (ctx.batch_slot = BatchWriterSlot.writerObject w →
        dyntastic_call ctx tableName region operation kwargs
          = Except.error (DynError.attributeError "BatchWriter" "get"))
      ∧ (ctx.batch_slot = BatchWriterSlot.contextVar (Option.some w) →
        dyntastic_call ctx tableName region operation kwargs
          = Except.error DynError.batchAndTransaction) := by
  intro ctx tableName region operation kwargs w t ht
  constructor
  · intro hslot
    simp [dyntastic_call, hslot, slotGet]
  · intro hslot
    simp [dyntastic_call, hslot, slotGet, ht]

/-- Witness for the amended C6 at a concrete context and operation. -/
theorem both_coordinators_error_on_first_operation_witness :
    dyntastic_call
        { batch_slot := BatchWriterSlot.writerObject ⟨25, [], 0⟩,
          transaction_writer := Option.some ⟨[], false, 100, 0, Option.none⟩ }
        "my_table" Option.none "put_item" []
        = Except.error (DynError.attributeError "BatchWriter" "get")
    ∧ dyntastic_call
        { batch_slot := BatchWriterSlot.contextVar (Option.some ⟨25, [], 0⟩),
          transaction_writer := Option.some ⟨[], false, 100, 0, Option.none⟩ }
        "my_table" Option.none "put_item" []
        = Except.error DynError.batchAndTransaction :=
  ⟨(both_coordinators_error_on_first_operation
      { batch_slot := BatchWriterSlot.writerObject ⟨25, [], 0⟩,
        transaction_writer := Option.some ⟨[], false, 100, 0, Option.none⟩ }
      "my_table" Option.none "put_item" [] ⟨25, [], 0⟩ ⟨[], false, 100, 0, Option.none⟩
      rfl).1 rfl,
   (both_coordinators_error_on_first_operation
      { batch_slot := BatchWriterSlot.contextVar (Option.some ⟨25, [], 0⟩),
        transaction_writer := Option.some ⟨[], false, 100, 0, Option.none⟩ }
      "my_table" Option.none "put_item" [] ⟨25, [], 0⟩ ⟨[], false, 100, 0, Option.none⟩
      rfl).2 rfl⟩

/-- Without auto-commit, adding items through one table while the buffer
stays within `TRANSACTION_MAX_ITEMS` just appends them: no error, no store
call. -/
theorem addAllItems_no_commit (items : List TransactItem) :
    ∀ (t : TransactionWriter) (region : Option String),
      t.auto_commit = false →
      t.items.length + items.length ≤ TRANSACTION_MAX_ITEMS →
      (t.first_table_region = Option.none ∨ t.first_table_region = Option.some region) →
      t.addAllItems region items
        = Except.ok
            ({ t with
                items := t.items ++ items
                first_table_region :=
                  if items.isEmpty then t.first_table_region
                  else Option.some region },
             []) := by
  induction items with
  | nil =>
    intro t region hac _ _
    simp [TransactionWriter.addAllItems]
  | cons item rest ih =>
    intro t region hac hlen hreg
    have hne : ¬ t.items.length = TRANSACTION_MAX_ITEMS := by
      simp only [List.length_cons] at hlen
      omega
    have hadd : t.addItem region item
        = Except.ok
            ({ t with
                items := t.items ++ [item]
                first_table_region := Option.some region },
             []) := by
      rcases hreg with h | h <;>
        simp [TransactionWriter.addItem, TransactionWriter.register, hac, hne, h]
    have hrest := ih
      { t with
          items := t.items ++ [item]
          first_table_region := Option.some region } region hac
      (by simp only [List.length_append, List.length_cons, List.length_nil] at hlen ⊢; omega)
      (Or.inr rfl)
    simp only [TransactionWriter.addAllItems, hadd, hrest]
    by_cases hr : rest.isEmpty <;> simp [hr]

/-- C2: with auto-commit disabled (any `commit_every ≤ 100`), a fresh
transaction writer accepts exactly `TRANSACTION_MAX_ITEMS` additions with no
store call and an intact buffer, and the next `add` fails with the
exceeded-max-items error (leaving nothing more buffered and still no
`transact_write_items` call issued). -/
theorem transaction_max_items_no_auto_commit :
    ∀ (commit_every : Nat) (region : Option String) (items : List TransactItem)
      (extra : TransactItem),
      commit_every ≤ TRANSACTION_MAX_ITEMS →
      items.length = TRANSACTION_MAX_ITEMS →
      mkTransactionWriter false commit_every
          = Except.ok ⟨[], false, commit_every, 0, Option.none⟩
      ∧ TransactionWriter.addAllItems ⟨[], false, commit_every, 0, Option.none⟩ region items
          = Except.ok (⟨items, false, commit_every, 0, Option.some region⟩, [])
      ∧ TransactionWriter.addItem ⟨items, false, commit_every, 0, Option.some region⟩
            region extra
          = Except.error (DynError.exceededMaxItems TRANSACTION_MAX_ITEMS) := by
  intro commit_every region items extra hce hlen
  have hnonempty : items.isEmpty = false := by
    cases items with
    | nil => simp [TRANSACTION_MAX_ITEMS] at hlen
    | cons a l => rfl
  refine ⟨by simp [mkTransactionWriter, hce], ?_, ?_⟩
  · have h := addAllItems_no_commit items ⟨[], false, commit_every, 0, Option.none⟩ region rfl
      (by simp [hlen]) (Or.inl rfl)
    simpa [hnonempty] using h
  · simp [TransactionWriter.addItem, hlen, TRANSACTION_MAX_ITEMS]

/-- Witness for C2: one hundred concrete additions, then a rejected 101st. -/
theorem transaction_max_items_no_auto_commit_witness :
    mkTransactionWriter false 100
        = Except.ok ⟨[], false, 100, 0, Option.none⟩
    ∧ TransactionWriter.addAllItems ⟨[], false, 100, 0, Option.none⟩ Option.none
          (List.replicate 100 ⟨"Put", []⟩)
        = Except.ok (⟨List.replicate 100 ⟨"Put", []⟩, false, 100, 0,
                      Option.some Option.none⟩, [])
    ∧ TransactionWriter.addItem
          ⟨List.replicate 100 ⟨"Put", []⟩, false, 100, 0, Option.some Option.none⟩
          Option.none ⟨"Put", []⟩
        = Except.error (DynError.exceededMaxItems TRANSACTION_MAX_ITEMS) :=
  transaction_max_items_no_auto_commit 100 Option.none (List.replicate 100 ⟨"Put", []⟩)
    ⟨"Put", []⟩ (by decide) (by simp [TRANSACTION_MAX_ITEMS])

/-- Evaluates `BatchWriter.add` when the buffer reaches `batch_size`: flush. -/
theorem BatchWriter.add_full (w : BatchWriter) (item : BatchItem)
    (h : w.batch_size ≤ w.batch.length + 1) :
    w.add item
      = (⟨w.batch_size, [], w.batches_submitted + 1⟩,
         [StoreCall.batchWriteItem (w.batch ++ [item])]) := by
  have hne : (w.batch ++ [item]).isEmpty = false := by
    cases w.batch <;> rfl
  simp [BatchWriter.add, BatchWriter.commit, h, hne]

/-- Evaluates `BatchWriter.add` below `batch_size`: append only, no store call. -/
theorem BatchWriter.add_not_full (w : BatchWriter) (item : BatchItem)
    (h : w.batch.length + 1 < w.batch_size) :
    w.add item = (⟨w.batch_size, w.batch ++ [item], w.batches_submitted⟩, []) := by
  have h2 : ¬ w.batch_size ≤ w.batch.length + 1 := by omega
  simp [BatchWriter.add, h2]

/-- Ceiling division, written as the code's observable count. -/
theorem ceil_div_eq (N B : Nat) (hB : 1 ≤ B) :
    (N + B - 1) / B = N / B + (if N % B = 0 then 0 else 1) := by
  have h0 : 0 < B := hB
  have hdm := Nat.div_add_mod N B
  have hrB : N % B < B := Nat.mod_lt _ h0
  by_cases hr0 : N % B = 0
  · have h1 : N + B - 1 = B * (N / B) + (B - 1) := by omega
    have h2 : (B - 1) / B = 0 := Nat.div_eq_of_lt (by omega)
    rw [h1, Nat.mul_add_div h0, h2, hr0]
    simp
  · have h1 : N + B - 1 = B * (N / B + 1) + (N % B - 1) := by
      have h2 : B * (N / B + 1) = B * (N / B) + B := by ring
      omega
    have h3 : (N % B - 1) / B = 0 := Nat.div_eq_of_lt (by omega)
    rw [h1, Nat.mul_add_div h0, h3]
    simp [hr0]

/-- Running invariant of `BatchWriter.addAll` from any in-range state: the
size is preserved, the number of flushes grows by the number of completed
groups, and the residual buffer length is the remainder. -/
theorem addAll_counts (items : List BatchItem) :
    ∀ w : BatchWriter, 1 ≤ w.batch_size → w.batch.length < w.batch_size →
      ((w.addAll items).1.batch_size = w.batch_size)
      ∧ ((w.addAll items).1.batches_submitted
          = w.batches_submitted + (w.batch.length + items.length) / w.batch_size)
      ∧ ((w.addAll items).1.batch.length
          = (w.batch.length + items.length) % w.batch_size) := by
  induction items with
  | nil =>
    intro w hB hlt
    refine ⟨rfl, ?_, ?_⟩ <;>
      simp [BatchWriter.addAll, Nat.div_eq_of_lt hlt, Nat.mod_eq_of_lt hlt]
  | cons item rest ih =>
    intro w hB hlt
    by_cases hfull : w.batch_size ≤ w.batch.length + 1
    · have hlen : w.batch.length + 1 = w.batch_size := by omega
      have hadd := BatchWriter.add_full w item hfull
      obtain ⟨hs1, hs2, hs3⟩ := ih ⟨w.batch_size, [], w.batches_submitted + 1⟩ hB
        (by simpa using hB)
      simp only [List.length_nil, Nat.zero_add] at hs1 hs2 hs3
      simp only [BatchWriter.addAll, hadd, List.length_cons]
      have harg : w.batch.length + (rest.length + 1) = rest.length + w.batch_size := by omega
      refine ⟨hs1, ?_, ?_⟩
      · rw [hs2, harg, Nat.add_div_right _ (show 0 < w.batch_size by omega)]
        omega
      · rw [hs3, harg, Nat.add_mod_right]
    · have hadd := BatchWriter.add_not_full w item (by omega)
      obtain ⟨hs1, hs2, hs3⟩ := ih ⟨w.batch_size, w.batch ++ [item], w.batches_submitted⟩ hB
        (by simp only [List.length_append, List.length_cons, List.length_nil]; omega)
      simp only [List.length_append, List.length_cons, List.length_nil] at hs1 hs2 hs3
      simp only [BatchWriter.addAll, hadd, List.length_cons]
      have harg : w.batch.length + 0 + 1 + rest.length = w.batch.length + (rest.length + 1) := by
        omega
      refine ⟨hs1, ?_, ?_⟩
      · rw [hs2, harg]
      · rw [hs3, harg]

/-- C4: starting from a fresh writer with batch size `B ≥ 1`, adding `N`
items flushes after every `B`-th add (`N / B` submissions during the adds),
and scope exit brings the total to `⌈N/B⌉ = (N + B - 1) / B`; when `B`
divides `N` the buffer is empty at exit and the exit flush performs no
submission. -/
theorem batch_writer_submission_count (items : List BatchItem) (B : Nat)
    (ctx : CallContext) (hB : 1 ≤ B) :
    ((BatchWriter.addAll ⟨B, [], 0⟩ items).1.batches_submitted = items.length / B)
    ∧ ((batchWriterExit ctx (BatchWriter.addAll ⟨B, [], 0⟩ items).1 false).2.1.batches_submitted
        = (items.length + B - 1) / B)
    ∧ (items.length % B = 0 →
        (batchWriterExit ctx (BatchWriter.addAll ⟨B, [], 0⟩ items).1 false).2.2 = []) := by
  have hcounts := addAll_counts items ⟨B, [], 0⟩ hB (by simpa using hB)
  simp only [List.length_nil, Nat.zero_add] at hcounts
  obtain ⟨hsize, hsub, hlen⟩ := hcounts
  refine ⟨hsub, ?_, ?_⟩
  · rw [ceil_div_eq items.length B hB]
    by_cases hr : items.length % B = 0
    · have hempty : ((BatchWriter.addAll ⟨B, [], 0⟩ items).1.batch).isEmpty = true := by
        rw [List.isEmpty_iff, ← List.length_eq_zero]
        omega
      simp [batchWriterExit, BatchWriter.commit, hempty, hsub, hr]
    · have hne : ((BatchWriter.addAll ⟨B, [], 0⟩ items).1.batch).isEmpty = false := by
        rw [List.isEmpty_eq_false_iff_exists_mem]
        rcases List.exists_mem_of_length_pos (l := (BatchWriter.addAll ⟨B, [], 0⟩ items).1.batch)
          (by omega) with ⟨a, ha⟩
        exact ⟨a, ha⟩
      simp [batchWriterExit, BatchWriter.commit, hne, hsub, hr]
  · intro hr
    have hempty : ((BatchWriter.addAll ⟨B, [], 0⟩ items).1.batch).isEmpty = true := by
      rw [List.isEmpty_iff, ← List.length_eq_zero]
      omega
    simp [batchWriterExit, BatchWriter.commit, hempty]

/-- Witness for C4: four items with batch size two — two flushes during the
adds, no further submission at exit. -/
theorem batch_writer_submission_count_witness :
    ((BatchWriter.addAll ⟨2, [], 0⟩ (List.replicate 4 ⟨"PutRequest", []⟩)).1.batches_submitted = 2)
    ∧ ((batchWriterExit initContext
          (BatchWriter.addAll ⟨2, [], 0⟩ (List.replicate 4 ⟨"PutRequest", []⟩)).1
          false).2.1.batches_submitted = 2)
    ∧ ((batchWriterExit initContext
          (BatchWriter.addAll ⟨2, [], 0⟩ (List.replicate 4 ⟨"PutRequest", []⟩)).1
          false).2.2 = []) := by
  have h := batch_writer_submission_count (List.replicate 4 ⟨"PutRequest", []⟩) 2
    initContext (by decide)
  refine ⟨h.1.trans (by decide), (h.2.1).trans (by decide), h.2.2 (by decide)⟩

/-! ## Verb grouping order (C3) -/

/-- Holds when `v` is not a verb key of the group list. -/
def verbNotIn (gs : List (String × List String)) (v : String) : Bool :=
  gs.all (fun g => g.1 ≠ v)

/-- Evaluates `groupAppend` on a fresh verb: pushes a new group at the end. -/
theorem groupAppend_of_all_ne (gs : List (String × List String)) (v f : String)
    (h : verbNotIn gs v = true) : groupAppend gs v f = gs ++ [(v, [f])] := by
  induction gs with
  | nil => rfl
  | cons g rest ih =>
    obtain ⟨gv, gf⟩ := g
    simp only [verbNotIn, List.all_cons, Bool.and_eq_true, decide_eq_true_eq] at h
    simp only [groupAppend, if_neg h.1]
    rw [ih h.2, List.cons_append]

/-- Mapping an extend-at-`v` function over groups none of which has key `v`
does nothing. -/
theorem map_extend_of_all_ne (l : List (String × List String)) (v f : String)
    (h : ∀ g ∈ l, g.1 ≠ v) :
    l.map (fun g => if g.1 = v then (g.1, g.2 ++ [f]) else g) = l := by
  induction l with
  | nil => rfl
  | cons a t ih =>
    simp only [List.map_cons, if_neg (h a (by simp))]
    rw [ih (fun g hg => h g (by simp [hg]))]

/-- Distributes `List.all` over a mapped list (heterogeneous version). -/
theorem all_map_general {α β : Type} (f : α → β) (l : List α) (p : β → Bool) :
    (l.map f).all p = l.all (p ∘ f) := by
  induction l with
  | nil => rfl
  | cons a t ih => simp [Function.comp, ih]

/-- Shows `verbNotIn` only looks at the verb keys. -/
theorem verbNotIn_eq_keys (gs : List (String × List String)) (v : String) :
    verbNotIn gs v = (gs.map Prod.fst).all (fun k => k ≠ v) := by
  rw [all_map_general]
  rfl

/-- Extending the group at `v` does not change the verb keys. -/
theorem map_extend_keys (gs : List (String × List String)) (v f : String) :
    (gs.map (fun g => if g.1 = v then (g.1, g.2 ++ [f]) else g)).map Prod.fst
      = gs.map Prod.fst := by
  rw [List.map_map]
  refine List.map_congr_left ?_
  intro g _
  by_cases hg : g.1 = v <;> simp [hg]

/-- Extending the group at `v` does not change which verbs are keys. -/
theorem verbNotIn_map_extend (gs : List (String × List String)) (v f p : String) :
    verbNotIn (gs.map (fun g => if g.1 = v then (g.1, g.2 ++ [f]) else g)) p
      = verbNotIn gs p := by
  rw [verbNotIn_eq_keys, verbNotIn_eq_keys, map_extend_keys]

/-- Evaluates `groupAppend` on an existing verb (unique by `Nodup`) extends exactly that
group in place. -/
theorem groupAppend_of_mem (gs : List (String × List String)) (v f : String)
    (hnd : (gs.map Prod.fst).Nodup) (hmem : verbNotIn gs v = false) :
    groupAppend gs v f = gs.map (fun g => if g.1 = v then (g.1, g.2 ++ [f]) else g) := by
  induction gs with
  | nil => simp [verbNotIn] at hmem
  | cons g rest ih =>
    obtain ⟨gv, gf⟩ := g
    simp only [List.map_cons, List.nodup_cons] at hnd
    by_cases hgv : gv = v
    · subst hgv
      have hrest : ∀ g2 ∈ rest, g2.1 ≠ gv := by
        intro g2 hg2 heq
        exact hnd.1 (List.mem_map.mpr ⟨g2, hg2, heq⟩)
      simp [groupAppend, map_extend_of_all_ne rest gv f hrest]
    · have hmem2 : verbNotIn rest v = false := by
        simp only [verbNotIn, List.all_cons, decide_eq_true_eq] at hmem ⊢
        rcases Bool.and_eq_false_iff.mp hmem with h | h
        · exact absurd (of_decide_eq_false h) (by simpa using hgv)
        · exact h
      simp only [groupAppend, if_neg hgv, List.map_cons, if_neg hgv]
      rw [ih hnd.2 hmem2]

/-- The grouping loop of `translate_updates`, started from any accumulator
with distinct verb keys, extends the existing groups with their fragments and
appends the remaining verbs' groups in first-encounter order. -/
theorem foldl_groupAppend_eq (pairs : List (String × String)) :
    ∀ gs : List (String × List String), (gs.map Prod.fst).Nodup →
      pairs.foldl (fun acc p => groupAppend acc p.1 p.2) gs
        = gs.map (fun g => (g.1, g.2 ++ (pairs.filter (fun p => p.1 = g.1)).map Prod.snd))
          ++ encounterGroups (pairs.filter (fun p => verbNotIn gs p.1)) := by
  induction pairs with
  | nil =>
    intro gs _
    simp [encounterGroups]
  | cons pr rest ih =>
    intro gs hnd
    obtain ⟨v, f⟩ := pr
    rw [List.foldl_cons]
    by_cases hin : verbNotIn gs v = true
    · rw [groupAppend_of_all_ne gs v f hin]
      have hvnotkey : ∀ g ∈ gs, g.1 ≠ v := by
        intro g hg
        have := (List.all_eq_true.mp hin) g hg
        simpa using this
      have hnd2 : ((gs ++ [(v, [f])]).map Prod.fst).Nodup := by
        rw [List.map_append]
        rw [List.nodup_append]
        refine ⟨hnd, by simp, ?_⟩
        intro a ha
        simp only [List.map_cons, List.map_nil, List.mem_singleton]
        rcases List.mem_map.mp ha with ⟨g, hg, hga⟩
        intro hav
        exact hvnotkey g hg (by rw [hga, hav])
      rw [ih (gs ++ [(v, [f])]) hnd2]
      have hfilters : ∀ g ∈ gs,
          (fun g => (g.1, g.2 ++ (rest.filter (fun p => p.1 = g.1)).map Prod.snd)) g
            = (fun g => (g.1, g.2 ++ (((v, f) :: rest).filter
                (fun p => p.1 = g.1)).map Prod.snd)) g := by
        intro g hg
        have : (decide (v = g.1)) = false := by
          simp only [decide_eq_false_iff_not]
          intro hveq
          exact hvnotkey g hg hveq.symm
        simp [List.filter_cons, this]
      rw [List.map_append, List.map_congr_left hfilters]
      have hconsfilter : ((v, f) :: rest).filter (fun p => verbNotIn gs p.1)
          = (v, f) :: rest.filter (fun p => verbNotIn gs p.1) := by
        simp [List.filter_cons, hin]
      rw [hconsfilter]
      have henc : encounterGroups ((v, f) :: rest.filter (fun p => verbNotIn gs p.1))
          = (v, f :: ((rest.filter (fun p => verbNotIn gs p.1)).filter
                (fun p => p.1 = v)).map Prod.snd)
            :: encounterGroups ((rest.filter (fun p => verbNotIn gs p.1)).filter
                (fun p => p.1 ≠ v)) := by
        simp [encounterGroups]
      rw [henc]
      have hff1 : (rest.filter (fun p => verbNotIn gs p.1)).filter (fun p => p.1 = v)
          = rest.filter (fun p => p.1 = v) := by
        rw [List.filter_filter]
        refine List.filter_congr ?_
        intro p _
        by_cases hp : p.1 = v
        · simp [hp, hin]
        · simp [hp]
      have hff2 : (rest.filter (fun p => verbNotIn gs p.1)).filter (fun p => p.1 ≠ v)
          = rest.filter (fun p => verbNotIn (gs ++ [(v, [f])]) p.1) := by
        rw [List.filter_filter]
        refine List.filter_congr ?_
        intro p _
        simp only [verbNotIn, List.all_append, List.all_cons, List.all_nil]
        by_cases hp : p.1 = v
        · simp [hp]
        · simp [hp, Ne.symm hp]
      rw [hff1, hff2]
      have hmapsingle :
          ([(v, [f])] : List (String × List String)).map
              (fun g => (g.1, g.2 ++ (rest.filter (fun p => p.1 = g.1)).map Prod.snd))
            = [(v, f :: (rest.filter (fun p => p.1 = v)).map Prod.snd)] := by
        simp
      rw [hmapsingle, List.append_assoc]
      rfl
    · have hin2 : verbNotIn gs v = false := by
        cases h : verbNotIn gs v
        · rfl
        · exact absurd h hin
      rw [groupAppend_of_mem gs v f hnd hin2]
      rw [ih _ (by rw [map_extend_keys]; exact hnd)]
      have hmm : (gs.map (fun g => if g.1 = v then (g.1, g.2 ++ [f]) else g)).map
            (fun g => (g.1, g.2 ++ (rest.filter (fun p => p.1 = g.1)).map Prod.snd))
          = gs.map (fun g => (g.1, g.2 ++ (((v, f) :: rest).filter
              (fun p => p.1 = g.1)).map Prod.snd)) := by
        rw [List.map_map]
        refine List.map_congr_left ?_
        intro g _
        by_cases hg : g.1 = v
        · simp only [Function.comp, if_pos hg, List.filter_cons]
          have : (decide (v = g.1)) = true := by simp [hg.symm]
          simp [this, hg]
        · simp only [Function.comp, if_neg hg, List.filter_cons]
          have : (decide (v = g.1)) = false := by
            simp only [decide_eq_false_iff_not]
            intro hveq
            exact hg hveq.symm
          simp [this]
      rw [hmm]
      have hpred : rest.filter (fun p => verbNotIn
            (gs.map (fun g => if g.1 = v then (g.1, g.2 ++ [f]) else g)) p.1)
          = rest.filter (fun p => verbNotIn gs p.1) := by
        refine List.filter_congr ?_
        intro p _
        exact verbNotIn_map_extend gs v f p.1
      rw [hpred]
      have hconsfilter : ((v, f) :: rest).filter (fun p => verbNotIn gs p.1)
          = rest.filter (fun p => verbNotIn gs p.1) := by
        simp [List.filter_cons, hin2]
      rw [hconsfilter]

/-- The defaultdict grouping of `translate_updates` equals grouping in
first-encounter verb order. -/
theorem groupFragments_eq_encounterGroups (pairs : List (String × String)) :
    groupFragments pairs = encounterGroups pairs := by
  have h := foldl_groupAppend_eq pairs [] (by simp)
  simpa [groupFragments, verbNotIn] using h

/-- C3 counterexample: with a `REMOVE` action supplied before a `SET` action,
the emitted `UpdateExpression` lists the `REMOVE` group first, not the
spec's fixed `SET, REMOVE, ADD, DELETE` order. -/
theorem update_expression_fixed_order_counterexample :
    (translate_updates [UpdateAction.remove "a" Option.none,
        UpdateAction.set "b" (Operand.lit (Value.int 1))]).UpdateExpression
      = "REMOVE #0 SET #1 = :0"
    ∧ specFixedOrderExpression [UpdateAction.remove "a" Option.none,
        UpdateAction.set "b" (Operand.lit (Value.int 1))]
      = "SET #1 = :0 REMOVE #0"
    ∧ (translate_updates [UpdateAction.remove "a" Option.none,
        UpdateAction.set "b" (Operand.lit (Value.int 1))]).UpdateExpression
      ≠ specFixedOrderExpression [UpdateAction.remove "a" Option.none,
        UpdateAction.set "b" (Operand.lit (Value.int 1))] := by
  refine ⟨rfl, rfl, by decide⟩

/-- C3 as amended: for every non-empty action list the `UpdateExpression` is
the space-joined concatenation of verb groups in first-encounter order of the
supplied actions (only verbs with at least one action present), with
same-verb fragments joined by `", "`. -/
theorem update_expression_encounter_order (actions : List UpdateAction)
    (_h : actions ≠ []) :
    (translate_updates actions).UpdateExpression
      = String.intercalate " "
          ((encounterGroups (buildActions actions ⟨[], []⟩).1).map
            (fun g => g.1 ++ " " ++ String.intercalate ", " g.2)) := by
  rcases hba : buildActions actions ⟨[], []⟩ with ⟨pairs, vars⟩
  simp [translate_updates, hba, groupFragments_eq_encounterGroups]

/-- Witness for the amended C3 at a concrete two-verb action list. -/
theorem update_expression_encounter_order_witness :
    (translate_updates [UpdateAction.set "a" (Operand.lit (Value.int 1)),
        UpdateAction.remove "b" Option.none]).UpdateExpression
      = String.intercalate " "
          ((encounterGroups (buildActions [UpdateAction.set "a" (Operand.lit (Value.int 1)),
              UpdateAction.remove "b" Option.none] ⟨[], []⟩).1).map
            (fun g => g.1 ++ " " ++ String.intercalate ", " g.2)) :=
  update_expression_encounter_order
    [UpdateAction.set "a" (Operand.lit (Value.int 1)), UpdateAction.remove "b" Option.none]
    (by simp)

end Dyntastic
